import Mathlib

/-!
Verification development for the bank-statement analysis program
(`analyze.py`).  The Python code is shallowly embedded: amounts (Python
floats holding decimal bank amounts) are modelled as `Rat`, strings as
`String`, dictionaries as association lists in insertion order, and
fallible code (Python exceptions) as `Option`-valued functions.
-/

namespace Analyze

/-! ## String helpers mirroring the Python string operations used -/

/-- Boolean test that `n` is a prefix of `h` (Python `str.startswith`). -/
def startsL : List Char → List Char → Bool
  | [], _ => true
  | _ :: _, [] => false
  | a :: n, b :: h => decide (a = b) && startsL n h

/-- Boolean test that `n` occurs as a contiguous sublist of `h`
(Python substring operator `in`). -/
def insideL : List Char → List Char → Bool
  | n, [] => startsL n []
  | n, c :: h => startsL n (c :: h) || insideL n h

/-- Split a character list at every occurrence of `sep`
(Python `str.split(sep)` for a one-character separator). -/
def splitCh (sep : Char) : List Char → List (List Char)
  | [] => [[]]
  | c :: t =>
    match splitCh sep t with
    | [] => [[c]]
    | h :: hs => if c = sep then [] :: h :: hs else (c :: h) :: hs

/-- Python `str.split(sep)` for a one-character separator. -/
def pySplit (s : String) (sep : Char) : List String :=
  (splitCh sep s.data).map (fun l => ⟨l⟩)

/-- Python `str.strip()`: remove whitespace from both ends. -/
def pyStrip (s : String) : String :=
  ⟨((s.data.dropWhile Char.isWhitespace).reverse.dropWhile Char.isWhitespace).reverse⟩

/-- Python `str.replace(c, "")`: delete every occurrence of character `c`. -/
def delCh (c : Char) (s : String) : String :=
  ⟨s.data.filter (fun d => decide (¬ d = c))⟩

/-- Python `str.lower()` (ASCII case folding). -/
def lowerS (s : String) : String := ⟨s.data.map Char.toLower⟩

/-- Case-insensitive substring test: Python `pat.lower() in text.lower()`. -/
def occB (pat text : String) : Bool := insideL (lowerS pat).data (lowerS text).data

/-- All characters are decimal digits. -/
def digitsOnly (cs : List Char) : Bool := cs.all (fun c => c.isDigit)

/-- Numeric value of a list of decimal digits. -/
def digitsVal (cs : List Char) : Nat := cs.foldl (fun n c => n * 10 + (c.toNat - 48)) 0

/-- Model of Python `float(s)` on plain decimal literals (optional sign,
digits, optional decimal point).  Exponent, `inf` and `nan` forms are not
produced by the bank statements and are treated as parse failures, like any
other malformed input (Python raises `ValueError`, modelled as `none`).
Values are exact rationals, idealising binary floating point. -/
def pyFloatS (s : String) : Option Rat :=
  let t := pyStrip s
  let neg : Bool := startsL ['-'] t.data
  let u : List Char :=
    if startsL ['-'] t.data ∨ startsL ['+'] t.data then t.data.drop 1 else t.data
  match splitCh '.' u with
  | [a] =>
      if ¬ a = [] ∧ digitsOnly a then
        some (if neg then -(digitsVal a : Rat) else (digitsVal a : Rat))
      else none
  | [a, b] =>
      if (¬ a = [] ∨ ¬ b = []) ∧ digitsOnly a ∧ digitsOnly b then
        let v : Rat := (digitsVal a : Rat) + (digitsVal b : Rat) / (10 : Rat) ^ b.length
        some (if neg then -v else v)
      else none
  | _ => none

/-- Model on Python `int(s)`: optional sign and decimal digits.  Failure is
`none` (Python raises `ValueError`). -/
def pyInt (s : String) : Option Int :=
  let t := pyStrip s
  let u : List Char :=
    if startsL ['-'] t.data ∨ startsL ['+'] t.data then t.data.drop 1 else t.data
  if ¬ u = [] ∧ digitsOnly u then
    some (if startsL ['-'] t.data then -(digitsVal u : Int) else (digitsVal u : Int))
  else none

/-- Lexicographic order on character lists by code point
(Python string comparison, used by `list.sort()` on the category names). -/
def listLe : List Char → List Char → Bool
  | [], _ => true
  | _ :: _, [] => false
  | a :: as, b :: bs => if a = b then listLe as bs else decide (a < b)

/-- Lexicographic order on strings. -/
def strLeB (a b : String) : Bool := listLe a.data b.data

/-- Insert a string into a sorted list of strings. -/
def insortStr (x : String) : List String → List String
  | [] => [x]
  | y :: t => if strLeB x y then x :: y :: t else y :: insortStr x t

/-- Sort a list of strings ascending (model of Python `list.sort()`). -/
def sortStr (l : List String) : List String := l.foldr insortStr []

/-! ## Data model

A normalized transaction record, as built by the statement loaders
(`load_bank_statement_akb` / `load_bank_statement_raiffeisen`): the Python
dictionaries with keys `Datum`, `Buchungstext`, `Belastung`, `Gutschrift`.
The `ID` key is carried separately as the first component of a pair, since
the Raiffeisen loader assigns it only after the merge pass. -/

structure Row where
  Datum : String
  Buchungstext : String
  Belastung : Rat
  Gutschrift : Rat
deriving DecidableEq

/-- Category definitions: mapping category name to its match patterns, in
file (insertion) order, as loaded from the yaml file. -/
abbrev Cats := List (String × List String)

/-- A categorized record: the row dictionary after `add_category` added the
`Kategorie` key. -/
structure CRow where
  ID : Nat
  Datum : String
  Buchungstext : String
  Belastung : Rat
  Gutschrift : Rat
  Kategorie : String
deriving DecidableEq

/-! ## Statement loaders (`load_bank_statement_akb`, lines 81-99, and
`load_bank_statement_raiffeisen`, lines 102-159) -/

/-- Parse one AKB CSV data line into an (ID, record) pair:
`load_bank_statement_akb`, loop body lines 89-98.  A missing cell or a
malformed amount is a Python exception, modelled as `none`. -/
def parseAkbLine (i : Nat) (line : String) : Option (Nat × Row) :=
  let cells := pySplit (pyStrip line) ';'
  match cells.get? 0, cells.get? 2, cells.get? 3, cells.get? 4 with
  | some c0, some c2, some c3, some c4 =>
    match (if c3 = "" then some (0 : Rat) else pyFloatS (delCh '\'' c3)),
          (if c4 = "" then some (0 : Rat) else pyFloatS (delCh '\'' c4)) with
    | some bel, some gut => some (i, ⟨c0, pyStrip (delCh '"' c2), bel, gut⟩)
    | _, _ => none
  | _, _, _, _ => none

/-- AKB loader on the file's lines: skip the header line, parse the rest
(`load_bank_statement_akb`, lines 88-99). -/
def loadAKB (lines : List String) : Option (List (Nat × Row)) :=
  (lines.drop 1).enum.mapM (fun p => parseAkbLine p.1 p.2)

/-- Parse one Raiffeisen CSV data line into a record: the first loop of
`load_bank_statement_raiffeisen`, lines 111-120.  The single signed amount
is split by sign into Belastung/Gutschrift. -/
def parseRaiffLine (line : String) : Option Row :=
  let cells := pySplit (pyStrip line) ';'
  match cells.get? 1, cells.get? 2, cells.get? 3 with
  | some c1, some c2, some c3 =>
    match (if c3 = "" then some (0 : Rat) else pyFloatS c3) with
    | some amount =>
      some ⟨(pySplit c1 ' ').headD "", pyStrip (delCh '"' c2),
            if amount < 0 then -amount else 0, if 0 < amount then amount else 0⟩
    | none => none
  | _, _, _ => none

/-- Amount carried into a merged Raiffeisen continuation row, from full row
`f` and continuation row `c` (lines 133-141): the full row's credit after a
`Gutschrift` booking text, its debit after `Zahlung`, otherwise the decimal
parse of the last space-delimited token of the continuation row's own text
with apostrophes stripped. -/
def claimAmount (f c : Row) : Option Rat :=
  if startsL "Gutschrift".data f.Buchungstext.data then some f.Gutschrift
  else if startsL "Zahlung".data f.Buchungstext.data then some f.Belastung
  else pyFloatS (delCh '\'' ((pySplit c.Buchungstext ' ').getLastD ""))

/-- The merged record a continuation row `c` becomes, given its full row `f`
(lines 133-145): carried amount, concatenated text, full row's date, and the
amount placed on whichever side was nonzero on the full row. -/
def mergedRow (f c : Row) : Option Row :=
  (claimAmount f c).map (fun a =>
    ⟨f.Datum, f.Buchungstext ++ " " ++ c.Buchungstext,
     if ¬ f.Belastung = 0 then a else 0,
     if ¬ f.Gutschrift = 0 then a else 0⟩)

/-- Loop state of the Raiffeisen merge pass (lines 127-154): `pf` is
`prev_full_row`, `pp` is the (possibly mutated) previously processed row
`table[i-1]`, and `acc` is `final_table` in reverse order. -/
structure MState where
  pf : Row
  pp : Row
  acc : List Row
deriving DecidableEq

/-- One iteration of the merge loop (lines 128-154) for `i > 0`: a row with
an empty date merges with `prev_full_row`, popping the previous output row
exactly when it equals `prev_full_row` by value; a row with a date becomes
the new `prev_full_row` and is appended. -/
def step (s : MState) (r : Row) : Option MState :=
  if r.Datum = "" then
    match mergedRow s.pf r with
    | none => none
    | some m => some ⟨s.pf, m, m :: (if s.pp = s.pf then s.acc.tail else s.acc)⟩
  else
    some ⟨r, r, r :: s.acc⟩

/-- Run the merge loop over the remaining rows. -/
def runRows (s : MState) (l : List Row) : Option MState := l.foldlM step s

/-- The Raiffeisen merge pass on the initially loaded table (lines 127-154).
The first row is processed by the `else` branch whatever its date is, since
the empty-date branch requires `i > 0`. -/
def mergeRows (table : List Row) : Option (List Row) :=
  match table with
  | [] => some []
  | r :: rest => (runRows ⟨r, r, [r]⟩ rest).map (fun s => s.acc.reverse)

/-- Raiffeisen loader on the file's lines: skip header and footer, parse,
merge, then number the rows (lines 106-159). -/
def loadRaiff (lines : List String) : Option (List (Nat × Row)) := do
  let t ← ((lines.drop 1).dropLast).mapM parseRaiffLine
  let m ← mergeRows t
  some m.enum

/-! ## Category resolution (`invert_categories`, lines 69-78, and
`add_category`, lines 173-187) -/

/-- Python dict assignment `d[k] = v`: an existing key keeps its position
and gets the new value, a new key is appended. -/
def insertUpdate (l : List (String × String)) (k v : String) : List (String × String) :=
  if l.any (fun pc => decide (pc.1 = k)) then
    l.map (fun pc => if pc.1 = k then (k, v) else pc)
  else l ++ [(k, v)]

/-- Invert the category definitions into a pattern-to-category mapping
(`invert_categories`, lines 69-78), in dict iteration order. -/
def invertCategories (cats : Cats) : List (String × String) :=
  cats.foldl (fun inv p => p.2.foldl (fun inv pat => insertUpdate inv pat p.1) inv) []

/-- One iteration of the pattern scan in `add_category` (lines 182-185):
state is the current (category, matched pattern length). -/
def stepCat (text : String) (s : String × Nat) (pc : String × String) : String × Nat :=
  if occB pc.1 text && decide (s.2 < pc.1.length) then (pc.2, pc.1.length) else s

/-- Category resolved for a booking text (`add_category` inner loop,
lines 180-185), starting from `("unknown", 0)`. -/
def resolveCat (inv : List (String × String)) (text : String) : String :=
  (inv.foldl (stepCat text) ("unknown", 0)).1

/-- Add the resolved category to every row (`add_category`, lines 173-187). -/
def addCategory (table : List (Nat × Row)) (cats : Cats) : List CRow :=
  let inv := invertCategories cats
  table.map (fun p =>
    ⟨p.1, p.2.Datum, p.2.Buchungstext, p.2.Belastung, p.2.Gutschrift,
     resolveCat inv p.2.Buchungstext⟩)

/-- Entries of the inverted mapping whose pattern matches `text`
case-insensitively with length above a threshold `n`. -/
def catMatchers (text : String) (n : Nat) (inv : List (String × String)) :
    List (String × String) :=
  inv.filter (fun pc => occB pc.1 text && decide (n < pc.1.length))

/-- Maximal pattern length in a list of (pattern, category) pairs. -/
def maxPatLen (l : List (String × String)) : Nat :=
  l.foldl (fun n pc => max n pc.1.length) 0

/-- The winner among a list of matching (pattern, category) pairs: the first
pair of maximal pattern length, or the fallback when the list is empty. -/
def bestOf (c : String) (n : Nat) (l : List (String × String)) : String × Nat :=
  match l.find? (fun pc => decide (pc.1.length = maxPatLen l)) with
  | some pc => (pc.2, pc.1.length)
  | none => (c, n)

/-- Resolution rule exactly as the claim words it: the category of the
longest pattern (empty or not) occurring case-insensitively in the text,
ties broken by iteration order, `"unknown"` when no pattern occurs. -/
def specResolveClaim (inv : List (String × String)) (text : String) : String :=
  (bestOf "unknown" 0 (inv.filter (fun pc => occB pc.1 text))).1

/-- Resolution rule restricted to non-empty patterns: the category of the
longest non-empty pattern occurring case-insensitively in the text, ties
broken by iteration order, `"unknown"` when no non-empty pattern occurs. -/
def specResolveLongest (inv : List (String × String)) (text : String) : String :=
  (bestOf "unknown" 0 (inv.filter (fun pc => occB pc.1 text && decide (¬ pc.1 = ""))) ).1

/-! ## Filter engine (`apply_filter`, lines 190-248) -/

/-- The operator characters, in the order the code tries them (line 202). -/
def opChars : List Char := ['=', '<', '>', '?', '!']

/-- Field names of a categorized record, in dictionary insertion order. -/
def rowKeys : List String :=
  ["ID", "Datum", "Buchungstext", "Belastung", "Gutschrift", "Kategorie"]

/-- Heterogeneous field value of a record dictionary. -/
inductive Value where
  | vInt : Int → Value
  | vRat : Rat → Value
  | vStr : String → Value
deriving DecidableEq

/-- Field lookup `row[key]` on a categorized record. -/
def rowGet (r : CRow) (k : String) : Value :=
  if k = "ID" then .vInt r.ID
  else if k = "Datum" then .vStr r.Datum
  else if k = "Buchungstext" then .vStr r.Buchungstext
  else if k = "Belastung" then .vRat r.Belastung
  else if k = "Gutschrift" then .vRat r.Gutschrift
  else if k = "Kategorie" then .vStr r.Kategorie
  else .vStr ""

/-- Python list indexing `l[i]` with negative indices counting from the end;
out of range is an `IndexError`, modelled as `none`. -/
def pyIndex (l : List String) (i : Int) : Option String :=
  if 0 ≤ i then l.get? i.toNat
  else if (-i).toNat ≤ l.length then l.get? (l.length - (-i).toNat) else none

/-- Resolve a filter clause's key token (lines 206-216): first field name
containing the token case-insensitively; failing that, the `KategorieIdx`
special case turning an integer operand into a category name; failing that
a hard error (`none`).  An empty table is an `IndexError` at `table[0]`. -/
def resolveKey (cats : Cats) (table : List CRow) (tk v : String) :
    Option (String × String) :=
  match table with
  | [] => none
  | _ :: _ =>
    match rowKeys.find? (fun fk => occB tk fk) with
    | some fk => some (fk, v)
    | none =>
      if occB tk "KategorieIdx" then
        match pyInt v with
        | some i => (pyIndex (cats.map Prod.fst) i).map (fun c => ("Kategorie", c))
        | none => none
      else none

/-- A prepared filter clause (the dictionaries appended at lines 230-235). -/
structure Filt where
  op : Char
  key : String
  value : String
deriving DecidableEq

/-- Process one comma-separated filter clause (lines 199-235): strip it,
then try every operator character in order, appending one prepared filter
per operator present in the clause. -/
def processClause (cats : Cats) (table : List CRow) (part0 : String) :
    Option (List Filt) :=
  let part := pyStrip part0
  opChars.foldlM (fun acc op =>
    if part.data.contains op then
      match pySplit part op with
      | [a, b] =>
        match resolveKey cats table a b with
        | some kv => some (acc ++ [⟨op, kv.1, kv.2⟩])
        | none => none
      | _ => none
    else some acc) []

/-- Prepare the clause table for a whole filter string (lines 198-235). -/
def parseFilters (cats : Cats) (table : List CRow) (fstr : String) :
    Option (List Filt) :=
  (pySplit fstr ',').foldlM
    (fun acc part => (processClause cats table part).map (fun fs => acc ++ fs)) []

/-- Whether `str(a)` begins with a digit character (line 220).  Python
raises an `IndexError` on an empty string, modelled as `none`; `str` of an
int or float begins with a digit exactly when the value is non-negative. -/
def firstDigit (v : Value) : Option Bool :=
  match v with
  | .vInt n => some (decide (0 ≤ n))
  | .vRat q => some (decide (0 ≤ q))
  | .vStr s =>
    match s.data with
    | [] => none
    | c :: _ => some c.isDigit

/-- Python `float(a)` on a field value. -/
def toFloat (v : Value) : Option Rat :=
  match v with
  | .vInt n => some (n : Rat)
  | .vRat q => some q
  | .vStr s => pyFloatS s

/-- Python `a == x` between a field value and a float: numeric comparison
for numbers, `False` across types. -/
def numEqF (v : Value) (x : Rat) : Bool :=
  match v with
  | .vInt n => decide ((n : Rat) = x)
  | .vRat q => decide (q = x)
  | .vStr _ => false

/-- Python `a == b` between a field value and the operand string. -/
def strEqV (v : Value) (b : String) : Bool :=
  match v with
  | .vStr s => decide (s = b)
  | _ => false

/-- Number of decimal digits needed to write a rational exactly (bounded
search; the amounts in this program are finite decimals). -/
def decCount (q : Rat) : Nat :=
  ((List.range 31).find? (fun k => decide ((q * (10 : Rat) ^ k).den = 1))).getD 17

/-- Left-pad a string with zeros to length `n`. -/
def padZero (s : String) (n : Nat) : String :=
  ⟨List.replicate (n - s.data.length) '0' ++ s.data⟩

/-- Decimal rendering of a rational, modelling Python `str` of a float
(always with a decimal point, e.g. `15.0`). -/
def ratStr (q : Rat) : String :=
  let sgn := if q < 0 then "-" else ""
  let a := |q|
  let ip : Nat := a.floor.toNat
  let fr := a - (a.floor : Rat)
  let k := max (decCount fr) 1
  sgn ++ toString ip ++ "." ++ padZero (toString ((fr * (10 : Rat) ^ k).floor.toNat)) k

/-- Python `str` of a field value. -/
def pyStrV (v : Value) : String :=
  match v with
  | .vInt n => toString n
  | .vRat q => ratStr q
  | .vStr s => s

/-- Evaluate one operator's match function (lines 218-228) on a field value
`a` and operand string `b`.  A failed numeric conversion is a Python
exception, modelled as `none`. -/
def opEval (op : Char) (a : Value) (b : String) : Option Bool :=
  if op = '=' then do
    let d ← firstDigit a
    if d then do
      let x ← pyFloatS b
      some (numEqF a x)
    else some (strEqV a b)
  else if op = '<' then do
    let x ← toFloat a
    let y ← pyFloatS b
    some (decide (x < y))
  else if op = '>' then do
    let x ← toFloat a
    let y ← pyFloatS b
    some (decide (y < x))
  else if op = '?' then some (insideL (lowerS b).data (lowerS (pyStrV a)).data)
  else if op = '!' then some (!insideL (lowerS b).data (lowerS (pyStrV a)).data)
  else none

/-- Evaluate one prepared filter on a record (line 243). -/
def evalFilt (f : Filt) (r : CRow) : Option Bool :=
  opEval f.op (rowGet r f.key) f.value

/-- Conjunction of all prepared filters on a record (lines 241-243):
Python's `and` short-circuits, so once false no further match function is
called. -/
def evalAll (fs : List Filt) (r : CRow) : Option Bool :=
  fs.foldlM (fun m f => if m then evalFilt f r else some false) true

/-- Build the output table of rows matching every filter (lines 238-246). -/
def filterRows (fs : List Filt) (table : List CRow) : Option (List CRow) :=
  table.foldlM
    (fun acc r => (evalAll fs r).map (fun b => if b then acc ++ [r] else acc)) []

/-- The filter engine (`apply_filter`, lines 190-248): an empty filter
string returns the table unchanged, otherwise prepare the clause table and
keep the rows matching every clause.  Any Python exception is `none`. -/
def applyFilter (table : List CRow) (fstr : String) (cats : Cats) :
    Option (List CRow) :=
  if fstr.data.isEmpty then some table
  else
    match parseFilters cats table fstr with
    | some fs => filterRows fs table
    | none => none

/-! ## Report aggregator (the `summary` branch of `print_to_stdout`,
lines 302-327) -/

/-- Round a rational to the nearest integer, ties to even (model of Python
`round` on a real value). -/
def rhe (q : Rat) : Int :=
  let f := q.floor
  let r := q - (f : Rat)
  if r < 1/2 then f
  else if 1/2 < r then f + 1
  else if f % 2 = 0 then f else f + 1

/-- Round to 2 decimal places (Python `round(x, 2)`). -/
def round2 (q : Rat) : Rat := ((rhe (q * 100)) : Rat) / 100

/-- One row of the printed summary table; the separator row holds empty
strings in the amount slots, hence the heterogeneous `Value` fields. -/
structure SumRow where
  Kategorie : String
  Belastung : Value
  Gutschrift : Value
deriving DecidableEq

/-- The blank separator row (`dummy`, line 306). -/
def dummyRow : SumRow := ⟨"", .vStr "", .vStr ""⟩

/-- Add a row's amounts into the per-category sums dictionary (lines
310-313): an existing category keeps its position, a new one is appended
with the row's amounts. -/
def upsert (acc : List (String × Rat × Rat)) (cat : String) (b g : Rat) :
    List (String × Rat × Rat) :=
  match acc with
  | [] => [(cat, b, g)]
  | e :: t => if e.1 = cat then (e.1, e.2.1 + b, e.2.2 + g) :: t else e :: upsert t cat b g

/-- The per-category sums dictionary after the accumulation loop
(lines 305-313). -/
def sumsOf (table : List CRow) : List (String × Rat × Rat) :=
  table.foldl (fun acc r => upsert acc r.Kategorie r.Belastung r.Gutschrift) []

/-- Lookup of a category's accumulated debit sum (`sums[key]['Belastung']`). -/
def lookB (sums : List (String × Rat × Rat)) (k : String) : Rat :=
  ((sums.find? (fun e => decide (e.1 = k))).map (fun e => e.2.1)).getD 0

/-- Lookup of a category's accumulated credit sum. -/
def lookG (sums : List (String × Rat × Rat)) (k : String) : Rat :=
  ((sums.find? (fun e => decide (e.1 = k))).map (fun e => e.2.2)).getD 0

/-- Sum of all debits (`sums_of_sums['Belastung']`, lines 307-314). -/
def totB (table : List CRow) : Rat := table.foldl (fun n r => n + r.Belastung) 0

/-- Sum of all credits. -/
def totG (table : List CRow) : Rat := table.foldl (fun n r => n + r.Gutschrift) 0

/-- The printed summary table (lines 302-327): one row per category in
name-sorted order with sums rounded to 2 decimals, plus a separator row and
a `GESAMT-TOTAL` row when there is more than one category. -/
def summarize (table : List CRow) : List SumRow :=
  let sums := sumsOf table
  let keys := sortStr (sums.map Prod.fst)
  let t := keys.map (fun k => (⟨k, .vRat (round2 (lookB sums k)),
    .vRat (round2 (lookG sums k))⟩ : SumRow))
  if 1 < t.length then
    t ++ [dummyRow, ⟨"GESAMT-TOTAL", .vRat (round2 (totB table)),
                     .vRat (round2 (totG table))⟩]
  else t

/-- Categories present in a table, first occurrence first (the key set of
the sums dictionary, stated independently of it). -/
def specCats (table : List CRow) : List String :=
  table.foldl (fun acc r => if r.Kategorie ∈ acc then acc else acc ++ [r.Kategorie]) []

/-- Sum of the debits of one category's rows. -/
def catSumB (table : List CRow) (c : String) : Rat :=
  ((table.filter (fun r => decide (r.Kategorie = c))).map CRow.Belastung).sum

/-- Sum of the credits of one category's rows. -/
def catSumG (table : List CRow) (c : String) : Rat :=
  ((table.filter (fun r => decide (r.Kategorie = c))).map CRow.Gutschrift).sum

/-! ## Example data used by witnesses and counterexamples -/

/-- Three categorized rows with debits 10, 75, 50 (spec's filter example). -/
def exRow10 : CRow := ⟨0, "d1", "t1", 10, 0, "unknown"⟩

/-- Row with debit 75. -/
def exRow75 : CRow := ⟨1, "d2", "t2", 75, 0, "unknown"⟩

/-- Row with debit 50. -/
def exRow50 : CRow := ⟨2, "d3", "t3", 50, 0, "unknown"⟩

/-- Table for the filter example. -/
def exTable : List CRow := [exRow10, exRow75, exRow50]

/-! ## General lemmas -/

theorem data_isEmpty_iff (s : String) : s.data.isEmpty = true ↔ s = "" := by
  cases s with
  | mk d =>
    cases d with
    | nil => simp [List.isEmpty]
    | cons c t =>
      simp only [List.isEmpty]
      constructor
      · intro h; exact absurd h (by simp)
      · intro h
        have : (String.mk (c :: t)).data = ("" : String).data := by rw [h]
        simp at this

/-! ## Claim C6: an empty filter expression is the identity transform -/

/-- Claim C6: for every input sequence of records, applying the filter
engine with an empty filter expression string returns the input sequence
unchanged: same records, same order, same length. -/
theorem c6_empty_filter_identity (table : List CRow) (cats : Cats) :
    applyFilter table "" cats = some table := rfl

/-! ## Claim C10: the category resolver is a frame on all other fields -/

/-- Claim C10: for every input sequence of records and every
category-definitions mapping, `add_category` returns a sequence of the same
length and order, and for each record changes only the `Kategorie` field,
leaving id, date, description, debit and credit unchanged. -/
theorem c10_addCategory_frame (table : List (Nat × Row)) (cats : Cats) :
    (addCategory table cats).length = table.length ∧
    ∀ (i : Nat) (h1 : i < (addCategory table cats).length) (h2 : i < table.length),
      ((addCategory table cats).get ⟨i, h1⟩).ID = (table.get ⟨i, h2⟩).1 ∧
      ((addCategory table cats).get ⟨i, h1⟩).Datum = (table.get ⟨i, h2⟩).2.Datum ∧
      ((addCategory table cats).get ⟨i, h1⟩).Buchungstext = (table.get ⟨i, h2⟩).2.Buchungstext ∧
      ((addCategory table cats).get ⟨i, h1⟩).Belastung = (table.get ⟨i, h2⟩).2.Belastung ∧
      ((addCategory table cats).get ⟨i, h1⟩).Gutschrift = (table.get ⟨i, h2⟩).2.Gutschrift := by
  constructor
  · simp [addCategory]
  · intro i h1 h2
    simp [addCategory, List.get_eq_getElem, List.getElem_map]

/-- Witness for C10 at a concrete one-row table. -/
theorem c10_witness :
    (addCategory [(3, (⟨"d", "t", 1, 2⟩ : Row))] []).length = 1 ∧
    ((addCategory [(3, (⟨"d", "t", 1, 2⟩ : Row))] []).get ⟨0, by decide⟩).ID = 3 := by
  have h := c10_addCategory_frame [(3, (⟨"d", "t", 1, 2⟩ : Row))] []
  exact ⟨h.1, (h.2 0 (by decide) (by decide)).1⟩

/-! ## Claim C4: one-sidedness of parsed records -/

/-- Counterexample to claim C4 as stated: an AKB row with both amount cells
populated parses to a record whose debit and credit are both nonzero, so it
is not true that every parser-produced record has exactly one nonzero side. -/
theorem c4_counterexample :
    loadAKB ["h", "d;x;t;5;7"] = some [(0, ⟨"d", "t", 5, 7⟩)] ∧
    ¬ ((5 : Rat) = 0) ∧ ¬ ((7 : Rat) = 0) := by
  exact ⟨by decide, by norm_num, by norm_num⟩

/-- Claim C4, amended: every record built from a Raiffeisen statement line
has non-negative debit and credit with at most one of them nonzero; and an
AKB row with exactly one non-empty amount cell parsing to a positive value
`q` yields a record with that side equal to `q`, the other side zero, and
`debit - (-credit) = q`. -/
theorem c4_amended :
    (∀ (line : String) (r : Row), parseRaiffLine line = some r →
        0 ≤ r.Belastung ∧ 0 ≤ r.Gutschrift ∧ (r.Belastung = 0 ∨ r.Gutschrift = 0)) ∧
    (∀ (i : Nat) (line : String) (p : Nat × Row) (c3 c4 : String),
        parseAkbLine i line = some p →
        (pySplit (pyStrip line) ';').get? 3 = some c3 →
        (pySplit (pyStrip line) ';').get? 4 = some c4 →
        (∀ q : Rat, ¬ c3 = "" → c4 = "" → pyFloatS (delCh '\'' c3) = some q → 0 < q →
          p.2.Belastung = q ∧ p.2.Gutschrift = 0 ∧ p.2.Belastung - (-(p.2.Gutschrift)) = q) ∧
        (∀ q : Rat, c3 = "" → ¬ c4 = "" → pyFloatS (delCh '\'' c4) = some q → 0 < q →
          p.2.Gutschrift = q ∧ p.2.Belastung = 0 ∧ p.2.Belastung - (-(p.2.Gutschrift)) = q)) := by
  constructor
  · intro line r h
    simp only [parseRaiffLine] at h
    split at h
    case h_2 => exact absurd h (by simp)
    case h_1 x1 x2 x3 c1 c2 c3 e1 e2 e3 =>
      split at h
      case h_2 => exact absurd h (by simp)
      case h_1 amount hamt =>
        have hr : (⟨(pySplit c1 ' ').headD "", pyStrip (delCh '"' c2),
            if amount < 0 then -amount else 0, if 0 < amount then amount else 0⟩ : Row) = r :=
          Option.some_injective _ h
        subst hr
        refine ⟨?_, ?_, ?_⟩
        · dsimp only
          split
          · linarith
          · exact le_refl 0
        · dsimp only
          split
          · linarith
          · exact le_refl 0
        · dsimp only
          rcases lt_trichotomy amount 0 with hlt | hzero | hgt
          · right; rw [if_neg (by linarith)]
          · left; rw [if_neg (by simp [hzero])]
          · left; rw [if_neg (by linarith)]
  · intro i line p c3 c4 h h3 h4
    simp only [parseAkbLine] at h
    split at h
    case h_2 => exact absurd h (by simp)
    case h_1 x1 x2 x3 x4 c0 c2 c3' c4' e0 e2 e3s e4s =>
      rw [h3] at e3s
      rw [h4] at e4s
      have e3' : c3 = c3' := Option.some_injective _ e3s
      have e4' : c4 = c4' := Option.some_injective _ e4s
      subst e3'
      subst e4'
      split at h
      case h_2 => exact absurd h (by simp)
      case h_1 bel gut hbel hgut =>
        have hp : (i, (⟨c0, pyStrip (delCh '"' c2), bel, gut⟩ : Row)) = p :=
          Option.some_injective _ h
        subst hp
        constructor
        · intro q hne hemp hparse hpos
          rw [if_neg hne, hparse] at hbel
          rw [if_pos hemp] at hgut
          have hbq : bel = q := Option.some_injective _ hbel.symm
          have hg0 : gut = 0 := (Option.some_injective _ hgut).symm
          dsimp only
          rw [hbq, hg0]
          exact ⟨rfl, rfl, by ring⟩
        · intro q hemp hne hparse hpos
          rw [if_pos hemp] at hbel
          rw [if_neg hne, hparse] at hgut
          have hgq : gut = q := Option.some_injective _ hgut.symm
          have hb0 : bel = 0 := (Option.some_injective _ hbel).symm
          dsimp only
          rw [hgq, hb0]
          exact ⟨rfl, rfl, by ring⟩

/-- Witness for the amended C4 at concrete statement lines. -/
theorem c4_witness :
    (0 ≤ (25 : Rat) ∧ 0 ≤ (0 : Rat) ∧ ((25 : Rat) = 0 ∨ (0 : Rat) = 0)) ∧
    ((5 : Rat) = 5 ∧ (0 : Rat) = 0 ∧ (5 : Rat) - (-(0 : Rat)) = 5) :=
  ⟨c4_amended.1 "x;01.01.2024 10:00;txt;-25" ⟨"01.01.2024", "txt", 25, 0⟩ (by decide),
   (c4_amended.2 0 "d;x;t;5;" (0, ⟨"d", "t", 5, 0⟩) "5" ""
      (by decide) (by decide) (by decide)).1 5 (by decide) rfl (by decide) (by decide)⟩

/-! ## Claim C9: filtering an empty table -/

/-- Counterexample to claim C9 as stated: the non-empty filter expression
`"x"` contains no operator character, so no clause is prepared, `table[0]`
is never inspected, and filtering an empty table returns the empty sequence
without error. -/
theorem c9_counterexample :
    applyFilter ([] : List CRow) "x" [("A", ["p"])] = some [] := by decide

/-- One clause containing an operator character makes `processClause` fail
on an empty table. -/
theorem processClause_nil_table (cats : Cats) (part : String)
    (h : ∃ c ∈ opChars, (pyStrip part).data.contains c = true) :
    processClause cats ([] : List CRow) part = none := by
  have H : ∀ (ops : List Char) (acc : List Filt),
      (∃ c ∈ ops, (pyStrip part).data.contains c = true) →
      ops.foldlM (fun acc op =>
        if (pyStrip part).data.contains op then
          match pySplit (pyStrip part) op with
          | [a, b] =>
            match resolveKey cats ([] : List CRow) a b with
            | some kv => some (acc ++ [⟨op, kv.1, kv.2⟩])
            | none => none
          | _ => none
        else some acc) acc = none := by
    intro ops
    induction ops with
    | nil => intro acc h'; simp at h'
    | cons o t ih =>
      intro acc h'
      rw [List.foldlM_cons]
      by_cases hc : (pyStrip part).data.contains o = true
      · have hb : (if (pyStrip part).data.contains o then
            match pySplit (pyStrip part) o with
            | [a, b] =>
              match resolveKey cats ([] : List CRow) a b with
              | some kv => some (acc ++ [⟨o, kv.1, kv.2⟩])
              | none => none
            | _ => none
          else some acc) = none := by
          rw [if_pos hc]
          rcases pySplit (pyStrip part) o with - | ⟨a, - | ⟨b, - | -⟩⟩ <;> rfl
        rw [hb]
        rfl
      · have hb : (if (pyStrip part).data.contains o then
            match pySplit (pyStrip part) o with
            | [a, b] =>
              match resolveKey cats ([] : List CRow) a b with
              | some kv => some (acc ++ [⟨o, kv.1, kv.2⟩])
              | none => none
            | _ => none
          else some acc) = some acc := if_neg hc
        rw [hb]
        obtain ⟨c, hcm, hcc⟩ := h'
        rcases List.mem_cons.mp hcm with rfl | hct
        · exact absurd hcc hc
        · exact ih acc ⟨c, hct, hcc⟩
  exact H opChars [] h

/-- A failing clause makes the whole clause-table preparation fail. -/
theorem parseFilters_none (cats : Cats) (table : List CRow) (parts : List String)
    (acc : List Filt) (h : ∃ part ∈ parts, processClause cats table part = none) :
    parts.foldlM
      (fun acc part => (processClause cats table part).map (fun fs => acc ++ fs)) acc
      = none := by
  induction parts generalizing acc with
  | nil => simp at h
  | cons p t ih =>
    simp only [List.foldlM_cons]
    obtain ⟨part, hmem, hnone⟩ := h
    rcases List.mem_cons.mp hmem with rfl | hmt
    · rw [hnone]; rfl
    · cases hp : processClause cats table p with
      | none => rfl
      | some fs => exact ih (acc ++ fs) ⟨part, hmt, hnone⟩

/-- Claim C9, amended: for every filter expression at least one of whose
comma-separated clauses contains an operator character, applying the filter
engine to an empty sequence of records fails with an error instead of
returning an empty sequence. -/
theorem c9_amended (fstr : String) (cats : Cats)
    (h : ∃ part ∈ pySplit fstr ',', ∃ c ∈ opChars, (pyStrip part).data.contains c = true) :
    applyFilter ([] : List CRow) fstr cats = none := by
  have hne : fstr.data.isEmpty = false := by
    cases hd : fstr.data.isEmpty
    · rfl
    · exfalso
      have : fstr = "" := (data_isEmpty_iff fstr).mp hd
      subst this
      obtain ⟨part, hmem, c, -, hcc⟩ := h
      have : part = ⟨[]⟩ := by
        have : pySplit "" ',' = [⟨[]⟩] := rfl
        rw [this] at hmem
        simpa using hmem
      subst this
      simp [pyStrip, List.contains] at hcc
  unfold applyFilter
  rw [hne]
  simp only [Bool.false_eq_true, if_false]
  have : parseFilters cats ([] : List CRow) fstr = none := by
    unfold parseFilters
    apply parseFilters_none
    obtain ⟨part, hmem, hop⟩ := h
    exact ⟨part, hmem, processClause_nil_table cats part hop⟩
  rw [this]

/-- Witness for the amended C9 at a concrete filter expression. -/
theorem c9_witness : applyFilter ([] : List CRow) "ID=0" [("A", ["p"])] = none :=
  c9_amended "ID=0" [("A", ["p"])] (by decide)

/-! ## Claim C5: conjunctive filter semantics and strict comparisons -/

/-- Once the running conjunction is false it stays false and no further
match function is evaluated. -/
theorem evalAll_from_false (fs : List Filt) (r : CRow) :
    fs.foldlM (fun m f => if m then evalFilt f r else some false) false = some false := by
  induction fs with
  | nil => rfl
  | cons g t ih => exact ih

/-- The conjunction evaluates to true exactly when every clause does. -/
theorem evalAll_cons (g : Filt) (t : List Filt) (r : CRow) :
    evalAll (g :: t) r = (evalFilt g r).bind
      (fun b => t.foldlM (fun m f => if m then evalFilt f r else some false) b) := rfl

/-- The conjunction evaluates to true exactly when every clause does. -/
theorem evalAll_true_iff (fs : List Filt) (r : CRow) :
    evalAll fs r = some true ↔ ∀ f ∈ fs, evalFilt f r = some true := by
  induction fs with
  | nil => simp [evalAll]
  | cons g t ih =>
    rw [evalAll_cons]
    cases he : evalFilt g r with
    | none =>
      simp only [Option.none_bind]
      constructor
      · intro h; exact absurd h (by simp)
      · intro hall; exact absurd (hall g (List.mem_cons_self g t)) (by simp [he])
    | some b =>
      cases b with
      | true =>
        simp only [Option.some_bind]
        rw [show (t.foldlM (fun m f => if m then evalFilt f r else some false) true)
            = evalAll t r from rfl]
        rw [ih]
        constructor
        · intro hall f hf
          rcases List.mem_cons.mp hf with rfl | hft
          · exact he
          · exact hall f hft
        · intro hall f hf
          exact hall f (List.mem_cons_of_mem g hf)
      | false =>
        simp only [Option.some_bind]
        rw [evalAll_from_false]
        constructor
        · intro h; exact absurd h (by simp)
        · intro hall
          have := hall g (List.mem_cons_self g t)
          rw [he] at this
          exact absurd this (by simp)

/-- The row loop builds exactly the sublist of rows whose conjunction
evaluates to true. -/
theorem filterRows_eq (fs : List Filt) (table : List CRow) (acc out : List CRow)
    (h : table.foldlM
      (fun acc r => (evalAll fs r).map (fun b => if b then acc ++ [r] else acc)) acc
      = some out) :
    out = acc ++ table.filter (fun r => evalAll fs r == some true) := by
  induction table generalizing acc with
  | nil =>
    simp only [List.foldlM_nil] at h
    simp [Option.some_injective _ h]
  | cons r t ih =>
    simp only [List.foldlM_cons] at h
    cases he : evalAll fs r with
    | none => rw [he] at h; exact absurd h (by simp)
    | some b =>
      rw [he] at h
      have h' : t.foldlM
          (fun acc r => (evalAll fs r).map (fun b => if b then acc ++ [r] else acc))
          (if b then acc ++ [r] else acc) = some out := h
      cases b with
      | true =>
        rw [if_pos rfl] at h'
        have := ih (acc ++ [r]) h'
        simp [this, List.filter_cons, he]
      | false =>
        rw [if_neg (by simp)] at h'
        have := ih acc h'
        simp [this, List.filter_cons, he]

/-- Claim C5: for every table and non-empty filter expression, a record
appears in the filter output iff it satisfies every prepared clause
(logical AND); the `>` and `<` operators compare both sides as decimals
with strict inequality; and on debit values 10, 75, 50 the filter
`Belastung>50` keeps exactly the row with 75 (boundary excluded). -/
theorem c5_filter_semantics :
    (∀ (table : List CRow) (fstr : String) (cats : Cats) (fs : List Filt)
      (out : List CRow),
      ¬ fstr = "" → parseFilters cats table fstr = some fs →
      applyFilter table fstr cats = some out →
      ∀ r : CRow, r ∈ out ↔ r ∈ table ∧ ∀ f ∈ fs, evalFilt f r = some true) ∧
    (∀ (f : Filt) (r : CRow) (x y : Rat),
      toFloat (rowGet r f.key) = some x → pyFloatS f.value = some y →
      (f.op = '>' → (evalFilt f r = some true ↔ y < x)) ∧
      (f.op = '<' → (evalFilt f r = some true ↔ x < y))) ∧
    applyFilter exTable "Belastung>50" [] = some [exRow75] := by
  refine ⟨?_, ?_, by decide⟩
  · intro table fstr cats fs out hne hparse happ r
    have hnil : fstr.data.isEmpty = false := by
      cases hd : fstr.data.isEmpty
      · rfl
      · exact absurd ((data_isEmpty_iff fstr).mp hd) hne
    unfold applyFilter at happ
    rw [hnil] at happ
    simp only [Bool.false_eq_true, if_false] at happ
    rw [hparse] at happ
    have := filterRows_eq fs table [] out happ
    subst this
    simp only [List.nil_append, List.mem_filter, beq_iff_eq]
    rw [evalAll_true_iff]
  · intro f r x y hx hy
    constructor
    · intro hop
      unfold evalFilt opEval
      rw [hop]
      simp [hx, hy]
    · intro hop
      unfold evalFilt opEval
      rw [hop]
      simp [hx, hy]

/-- Witness for C5 at the concrete three-row table. -/
theorem c5_witness :
    exRow75 ∈ [exRow75] ↔ exRow75 ∈ exTable ∧
      ∀ f ∈ [(⟨'>', "Belastung", "50"⟩ : Filt)], evalFilt f exRow75 = some true :=
  c5_filter_semantics.1 exTable "Belastung>50" [] [⟨'>', "Belastung", "50"⟩] [exRow75]
    (by decide) (by decide) (by decide) exRow75

/-! ## Claim C7: filter key resolution -/

/-- Claim C7: for every filter clause on a non-empty table, the key token
resolves to the first field name containing it case-insensitively; if no
field name matches, the `KategorieIdx` special case maps an integer operand
to the category at that position of the definitions' key order, matched on
the `Kategorie` field; and if that also fails the engine raises a hard
error (no silent no-match): resolution returns `none`, which makes the
clause processing and hence the whole filter call fail. -/
theorem c7_key_resolution :
    (∀ (cats : Cats) (r0 : CRow) (t : List CRow) (tk v fk : String),
      rowKeys.find? (fun fk => occB tk fk) = some fk →
      resolveKey cats (r0 :: t) tk v = some (fk, v)) ∧
    (∀ (cats : Cats) (r0 : CRow) (t : List CRow) (tk v : String) (i : Int) (c : String),
      rowKeys.find? (fun fk => occB tk fk) = none →
      occB tk "KategorieIdx" = true → pyInt v = some i →
      pyIndex (cats.map Prod.fst) i = some c →
      resolveKey cats (r0 :: t) tk v = some ("Kategorie", c)) ∧
    (∀ (cats : Cats) (table : List CRow) (tk v : String),
      rowKeys.find? (fun fk => occB tk fk) = none →
      ¬ occB tk "KategorieIdx" = true →
      resolveKey cats table tk v = none) ∧
    (∀ (cats : Cats) (table : List CRow) (part a b : String),
      pyStrip part = part → part.data.contains '=' = true →
      pySplit part '=' = [a, b] → resolveKey cats table a b = none →
      processClause cats table part = none) := by
  refine ⟨?_, ?_, ?_, ?_⟩
  · intro cats r0 t tk v fk hf
    unfold resolveKey
    rw [hf]
  · intro cats r0 t tk v i c hf hocc hint hidx
    unfold resolveKey
    rw [hf, if_pos hocc, hint]
    dsimp only
    rw [hidx]
    rfl
  · intro cats table tk v hf hocc
    unfold resolveKey
    cases table with
    | nil => rfl
    | cons r0 t => rw [hf, if_neg hocc]
  · intro cats table part a b hstrip hcont hsplit hres
    unfold processClause
    rw [hstrip]
    simp only [opChars, List.foldlM_cons]
    rw [hcont, if_pos rfl, hsplit]
    dsimp only
    rw [hres]
    rfl

/-- Witness for C7 at concrete tokens: `datum` hits the `Datum` field,
`idx` goes through `KategorieIdx` with operand 1, `zzz` is a hard error
that also fails the clause processing. -/
theorem c7_witness :
    resolveKey [("A", ["p"]), ("B", ["q"])] [exRow10] "datum" "x" = some ("Datum", "x") ∧
    resolveKey [("A", ["p"]), ("B", ["q"])] [exRow10] "idx" "1" = some ("Kategorie", "B") ∧
    resolveKey [("A", ["p"]), ("B", ["q"])] [exRow10] "zzz" "q" = none ∧
    processClause [("A", ["p"]), ("B", ["q"])] [exRow10] "zzz=q" = none :=
  ⟨c7_key_resolution.1 [("A", ["p"]), ("B", ["q"])] exRow10 [] "datum" "x" "Datum" (by decide),
   c7_key_resolution.2.1 [("A", ["p"]), ("B", ["q"])] exRow10 [] "idx" "1" 1 "B"
     (by decide) (by decide) (by decide) (by decide),
   c7_key_resolution.2.2.1 [("A", ["p"]), ("B", ["q"])] [exRow10] "zzz" "q"
     (by decide) (by decide),
   c7_key_resolution.2.2.2 [("A", ["p"]), ("B", ["q"])] [exRow10] "zzz=q" "zzz" "q"
     (by decide) (by decide) (by decide)
     (c7_key_resolution.2.2.1 [("A", ["p"]), ("B", ["q"])] [exRow10] "zzz" "q"
       (by decide) (by decide))⟩

/-! ## Claims C2 and C3: the Raiffeisen row-continuation merge -/

/-- A row with a date becomes the new full row and is appended. -/
theorem step_full (s : MState) (r : Row) (h : ¬ r.Datum = "") :
    step s r = some ⟨r, r, r :: s.acc⟩ := by
  unfold step
  rw [if_neg h]

/-- A continuation row directly after its full row merges and pops the
full row from the output. -/
theorem step_cont_pop (f : Row) (acc : List Row) (c m : Row) (hc : c.Datum = "")
    (hm : mergedRow f c = some m) :
    step ⟨f, f, acc⟩ c = some ⟨f, m, m :: acc.tail⟩ := by
  unfold step
  rw [if_pos hc, hm]
  dsimp only
  rw [if_pos rfl]

/-- A continuation row whose predecessor is not the full row merges and
pops nothing. -/
theorem step_cont_nopop (f p : Row) (acc : List Row) (c m : Row) (hc : c.Datum = "")
    (hp : ¬ p = f) (hm : mergedRow f c = some m) :
    step ⟨f, p, acc⟩ c = some ⟨f, m, m :: acc⟩ := by
  unfold step
  rw [if_pos hc, hm]
  dsimp only
  rw [if_neg hp]

/-- A merged record never equals its full row: its booking text is strictly
longer. -/
theorem mergedRow_ne (f c m : Row) (hm : mergedRow f c = some m) : ¬ m = f := by
  unfold mergedRow at hm
  cases ha : claimAmount f c with
  | none => rw [ha] at hm; exact absurd hm (by simp)
  | some a =>
    rw [ha] at hm
    have hm' : (⟨f.Datum, f.Buchungstext ++ " " ++ c.Buchungstext,
        if ¬ f.Belastung = 0 then a else 0,
        if ¬ f.Gutschrift = 0 then a else 0⟩ : Row) = m := Option.some_injective _ hm
    subst hm'
    intro heq
    have htext : f.Buchungstext ++ " " ++ c.Buchungstext = f.Buchungstext :=
      congrArg Row.Buchungstext heq
    have hlen := congrArg String.length htext
    rw [String.length_append, String.length_append] at hlen
    have : (" " : String).length = 1 := rfl
    omega

/-- Chain of continuation rows after the first: each merges with the carried
full row and is appended, popping nothing. -/
theorem runRows_conts (f : Row) (cs : List Row)
    (hcs : ∀ c ∈ cs, c.Datum = "" ∧ (mergedRow f c).isSome) :
    ∀ (p : Row) (acc : List Row), ¬ p = f →
    ∃ p', ¬ p' = f ∧
      runRows ⟨f, p, acc⟩ cs = some ⟨f, p', (cs.filterMap (mergedRow f)).reverse ++ acc⟩ := by
  induction cs with
  | nil => intro p acc hp; exact ⟨p, hp, rfl⟩
  | cons c ct ih =>
    intro p acc hp
    obtain ⟨hc, hm⟩ := hcs c (List.mem_cons_self c ct)
    obtain ⟨m, hm'⟩ := Option.isSome_iff_exists.mp hm
    have hstep := step_cont_nopop f p acc c m hc hp hm'
    have hrw : runRows ⟨f, p, acc⟩ (c :: ct) = runRows ⟨f, m, m :: acc⟩ ct := by
      unfold runRows
      rw [List.foldlM_cons, hstep]
      rfl
    rw [hrw]
    obtain ⟨p', hp', hrun⟩ :=
      ih (fun c' hc' => hcs c' (List.mem_cons_of_mem _ hc')) m (m :: acc)
        (mergedRow_ne f c m hm')
    refine ⟨p', hp', ?_⟩
    rw [hrun]
    simp [List.filterMap_cons, hm', List.append_assoc]

/-- A full row followed by a non-empty block of continuation rows: the first
continuation pops the full row, the rest are appended, leaving exactly the
merged records on top of the earlier output. -/
theorem runRows_full_conts (f : Row) (acc0 : List Row) (cs : List Row)
    (hne : ¬ cs = []) (hcs : ∀ c ∈ cs, c.Datum = "" ∧ (mergedRow f c).isSome) :
    ∃ p', ¬ p' = f ∧
      runRows ⟨f, f, f :: acc0⟩ cs
        = some ⟨f, p', (cs.filterMap (mergedRow f)).reverse ++ acc0⟩ := by
  cases cs with
  | nil => exact absurd rfl hne
  | cons c ct =>
    obtain ⟨hc, hm⟩ := hcs c (List.mem_cons_self c ct)
    obtain ⟨m, hm'⟩ := Option.isSome_iff_exists.mp hm
    have hstep := step_cont_pop f (f :: acc0) c m hc hm'
    have hrw : runRows ⟨f, f, f :: acc0⟩ (c :: ct) = runRows ⟨f, m, m :: acc0⟩ ct := by
      unfold runRows
      rw [List.foldlM_cons, hstep]
      rfl
    rw [hrw]
    obtain ⟨p', hp', hrun⟩ :=
      runRows_conts f ct (fun c' hc' => hcs c' (List.mem_cons_of_mem _ hc')) m (m :: acc0)
        (mergedRow_ne f c m hm')
    refine ⟨p', hp', ?_⟩
    rw [hrun]
    simp [List.filterMap_cons, hm', List.append_assoc]

/-- Claim C2: whenever the rows after the header contain a full row
immediately followed by continuation rows, the first continuation removes
the full row from the output (which would otherwise have ended with it) and
every continuation contributes exactly one merged record; in particular a
2-line full+continuation sequence yields exactly 1 output record. -/
theorem c2_merge_shape :
    (∀ (pre : List Row) (f : Row) (cs : List Row) (out : List Row),
      ¬ f.Datum = "" → ¬ cs = [] → (∀ c ∈ cs, c.Datum = "") →
      (∀ c ∈ cs, (mergedRow f c).isSome) →
      mergeRows (pre ++ [f]) = some out →
      ∃ X, out = X ++ [f] ∧
        mergeRows (pre ++ f :: cs) = some (X ++ cs.filterMap (mergedRow f))) ∧
    (∀ (f c : Row), ¬ f.Datum = "" → c.Datum = "" → (mergedRow f c).isSome →
      (mergeRows [f, c]).map List.length = some 1) := by
  constructor
  · intro pre f cs out hf hne hdat hsome hpre
    have hcs : ∀ c ∈ cs, c.Datum = "" ∧ (mergedRow f c).isSome :=
      fun c hc => ⟨hdat c hc, hsome c hc⟩
    cases pre with
    | nil =>
      have hout : out = [f] := by
        have : mergeRows [f] = some [f] := rfl
        rw [List.nil_append] at hpre
        rw [this] at hpre
        exact (Option.some_injective _ hpre).symm
      subst hout
      refine ⟨[], rfl, ?_⟩
      obtain ⟨p', -, hrun⟩ := runRows_full_conts f [] cs hne hcs
      have : mergeRows ([] ++ f :: cs) = (runRows ⟨f, f, [f]⟩ cs).map
          (fun s => s.acc.reverse) := rfl
      rw [this, hrun]
      simp
    | cons p0 pre' =>
      have hsplit : runRows ⟨p0, p0, [p0]⟩ (pre' ++ [f])
          = (runRows ⟨p0, p0, [p0]⟩ pre') >>= (fun s1 => runRows s1 [f]) := by
        unfold runRows
        exact List.foldlM_append _ _ _ _
      have hpre' : (runRows ⟨p0, p0, [p0]⟩ (pre' ++ [f])).map (fun s => s.acc.reverse)
          = some out := hpre
      rw [hsplit] at hpre'
      cases hs1 : runRows ⟨p0, p0, [p0]⟩ pre' with
      | none => rw [hs1] at hpre'; exact absurd hpre' (by simp)
      | some s1 =>
        rw [hs1] at hpre'
        have hstepf := step_full s1 f hf
        have h1 : runRows s1 [f] = some ⟨f, f, f :: s1.acc⟩ := by
          unfold runRows
          rw [List.foldlM_cons, hstepf]
          rfl
        have hpre2 : (runRows s1 [f]).map (fun s => s.acc.reverse) = some out := hpre'
        rw [h1] at hpre2
        have hout : out = s1.acc.reverse ++ [f] := by
          have h3 : some ((f :: s1.acc).reverse) = some out := hpre2
          have h4 := (Option.some_injective _ h3).symm
          rw [h4, List.reverse_cons]
        have h2 : runRows s1 (f :: cs) = runRows ⟨f, f, f :: s1.acc⟩ cs := by
          unfold runRows
          rw [List.foldlM_cons, hstepf]
          rfl
        obtain ⟨p', -, hrun⟩ := runRows_full_conts f s1.acc cs hne hcs
        refine ⟨s1.acc.reverse, hout, ?_⟩
        have hm2 : mergeRows ((p0 :: pre') ++ f :: cs)
            = (runRows ⟨p0, p0, [p0]⟩ (pre' ++ f :: cs)).map (fun s => s.acc.reverse) := rfl
        rw [hm2]
        have hsplit2 : runRows ⟨p0, p0, [p0]⟩ (pre' ++ f :: cs)
            = (runRows ⟨p0, p0, [p0]⟩ pre') >>= (fun s => runRows s (f :: cs)) := by
          unfold runRows
          exact List.foldlM_append _ _ _ _
        rw [hsplit2, hs1]
        have hred : ((some s1 >>= fun s => runRows s (f :: cs)).map (fun s => s.acc.reverse))
            = ((runRows s1 (f :: cs)).map (fun s => s.acc.reverse)) := rfl
        rw [hred, h2, hrun]
        simp
  · intro f c hf hc hm
    obtain ⟨m, hm'⟩ := Option.isSome_iff_exists.mp hm
    have hstep := step_cont_pop f [f] c m hc hm'
    have hmr : mergeRows [f, c] = some [m] := by
      show (runRows ⟨f, f, [f]⟩ [c]).map (fun s => s.acc.reverse) = some [m]
      unfold runRows
      rw [List.foldlM_cons, hstep]
      rfl
    rw [hmr]
    rfl

/-- Raiffeisen full row used by the merge witnesses. -/
def exFull : Row := ⟨"01.01.2024", "Zahlung X", 10, 0⟩

/-- Raiffeisen continuation row used by the merge witnesses. -/
def exCont : Row := ⟨"", "detail", 0, 0⟩

/-- The record the continuation row merges into. -/
def exMerged : Row := ⟨"01.01.2024", "Zahlung X detail", 10, 0⟩

/-- Witness for C2 at a concrete 2-line full+continuation sequence. -/
theorem c2_witness :
    ∃ X, [exFull] = X ++ [exFull] ∧
      mergeRows ([] ++ exFull :: [exCont]) = some (X ++ [exCont].filterMap (mergedRow exFull)) :=
  c2_merge_shape.1 [] exFull [exCont] [exFull]
    (by decide) (by decide) (by decide) (by decide) (by decide)

/-- Field content of a merged record in terms of its full and continuation
rows. -/
theorem mergedRow_fields (f c m : Row) (hm : mergedRow f c = some m)
    (hBG : f.Belastung = 0 ∨ f.Gutschrift = 0) :
    ∃ amt, claimAmount f c = some amt ∧ m.Datum = f.Datum ∧
      m.Buchungstext = f.Buchungstext ++ " " ++ c.Buchungstext ∧
      (¬ f.Belastung = 0 → m.Belastung = amt ∧ m.Gutschrift = 0) ∧
      (¬ f.Gutschrift = 0 → m.Gutschrift = amt ∧ m.Belastung = 0) ∧
      (f.Belastung = 0 → f.Gutschrift = 0 → m.Belastung = 0 ∧ m.Gutschrift = 0) := by
  unfold mergedRow at hm
  cases ha : claimAmount f c with
  | none => rw [ha] at hm; exact absurd hm (by simp)
  | some a =>
    rw [ha] at hm
    have hm' : (⟨f.Datum, f.Buchungstext ++ " " ++ c.Buchungstext,
        if ¬ f.Belastung = 0 then a else 0, if ¬ f.Gutschrift = 0 then a else 0⟩ : Row) = m :=
      Option.some_injective _ hm
    subst hm'
    refine ⟨a, rfl, rfl, rfl, ?_, ?_, ?_⟩
    · intro hB
      dsimp only
      rcases hBG with h0 | h0
      · exact absurd h0 hB
      · rw [if_pos hB, if_neg (by simp [h0])]
        exact ⟨rfl, rfl⟩
    · intro hG
      dsimp only
      rcases hBG with h0 | h0
      · rw [if_pos hG, if_neg (by simp [h0])]
        exact ⟨rfl, rfl⟩
      · exact absurd h0 hG
    · intro hB hG
      dsimp only
      rw [if_neg (by simp [hB]), if_neg (by simp [hG])]
      exact ⟨rfl, rfl⟩

/-- The merged record of a full row directly followed by one continuation
row ends the output table. -/
theorem mergeRows_pre_last (pre : List Row) (f c : Row) (out : List Row)
    (hf : ¬ f.Datum = "") (hc : c.Datum = "")
    (h : mergeRows (pre ++ [f, c]) = some out) :
    ∃ m, mergedRow f c = some m ∧ out.getLast? = some m := by
  cases pre with
  | nil =>
    have hdef : mergeRows ([] ++ [f, c])
        = (runRows ⟨f, f, [f]⟩ [c]).map (fun s => s.acc.reverse) := rfl
    rw [hdef] at h
    cases hmc : mergedRow f c with
    | none =>
      have hstep : step ⟨f, f, [f]⟩ c = none := by
        unfold step
        rw [if_pos hc, hmc]
      have hnone : runRows ⟨f, f, [f]⟩ [c] = none := by
        unfold runRows
        rw [List.foldlM_cons, hstep]
        rfl
      rw [hnone] at h
      exact absurd h (by simp)
    | some m =>
      have hstep := step_cont_pop f [f] c m hc hmc
      have hrr : runRows ⟨f, f, [f]⟩ [c] = some ⟨f, m, [m]⟩ := by
        unfold runRows
        rw [List.foldlM_cons, hstep]
        rfl
      rw [hrr] at h
      have hout : out = [m] := by
        have h3 : some ([m].reverse) = some out := h
        exact (Option.some_injective _ h3).symm
      exact ⟨m, rfl, by rw [hout]; rfl⟩
  | cons p0 pre' =>
    have hdef : mergeRows ((p0 :: pre') ++ [f, c])
        = (runRows ⟨p0, p0, [p0]⟩ (pre' ++ [f, c])).map (fun s => s.acc.reverse) := rfl
    rw [hdef] at h
    have hsplit : runRows ⟨p0, p0, [p0]⟩ (pre' ++ [f, c])
        = runRows ⟨p0, p0, [p0]⟩ pre' >>= (fun s => runRows s [f, c]) := by
      unfold runRows
      exact List.foldlM_append _ _ _ _
    rw [hsplit] at h
    cases hs1 : runRows ⟨p0, p0, [p0]⟩ pre' with
    | none => rw [hs1] at h; exact absurd h (by simp)
    | some s1 =>
      rw [hs1] at h
      have h2 : (runRows s1 [f, c]).map (fun s => s.acc.reverse) = some out := h
      have hstepf := step_full s1 f hf
      cases hmc : mergedRow f c with
      | none =>
        have hstep2 : step ⟨f, f, f :: s1.acc⟩ c = none := by
          unfold step
          rw [if_pos hc, hmc]
        have hnone : runRows s1 [f, c] = none := by
          unfold runRows
          rw [List.foldlM_cons, hstepf]
          show List.foldlM step ⟨f, f, f :: s1.acc⟩ [c] = none
          rw [List.foldlM_cons, hstep2]
          rfl
        rw [hnone] at h2
        exact absurd h2 (by simp)
      | some m =>
        have hstep2 := step_cont_pop f (f :: s1.acc) c m hc hmc
        have hrr : runRows s1 [f, c] = some ⟨f, m, m :: s1.acc⟩ := by
          unfold runRows
          rw [List.foldlM_cons, hstepf]
          show List.foldlM step ⟨f, f, f :: s1.acc⟩ [c] = some ⟨f, m, m :: s1.acc⟩
          rw [List.foldlM_cons, hstep2]
          rfl
        rw [hrr] at h2
        have hout : out = s1.acc.reverse ++ [m] := by
          have h3 : some ((m :: s1.acc).reverse) = some out := h2
          have h4 := (Option.some_injective _ h3).symm
          rw [h4, List.reverse_cons]
        exact ⟨m, rfl, by rw [hout]; exact List.getLast?_concat _⟩

/-- Claim C3: for every Raiffeisen continuation row directly preceded by a
full row, the merged record appended to the output carries the claim's
amount (`Gutschrift` prefix reuses the credit, `Zahlung` the debit, else
the decimal parse of the last token of the continuation's text), the
concatenated description, the full row's date, and the amount sits on
whichever side was nonzero on the full row, the other side zero. -/
theorem c3_continuation_fields (pre : List Row) (f c : Row) (out : List Row)
    (hf : ¬ f.Datum = "") (hc : c.Datum = "")
    (hBG : f.Belastung = 0 ∨ f.Gutschrift = 0)
    (h : mergeRows (pre ++ [f, c]) = some out) :
    ∃ m amt, out.getLast? = some m ∧ claimAmount f c = some amt ∧
      m.Datum = f.Datum ∧
      m.Buchungstext = f.Buchungstext ++ " " ++ c.Buchungstext ∧
      (¬ f.Belastung = 0 → m.Belastung = amt ∧ m.Gutschrift = 0) ∧
      (¬ f.Gutschrift = 0 → m.Gutschrift = amt ∧ m.Belastung = 0) ∧
      (f.Belastung = 0 → f.Gutschrift = 0 → m.Belastung = 0 ∧ m.Gutschrift = 0) := by
  obtain ⟨m, hmc, hlast⟩ := mergeRows_pre_last pre f c out hf hc h
  obtain ⟨amt, ha, h1, h2, h3, h4, h5⟩ := mergedRow_fields f c m hmc hBG
  exact ⟨m, amt, hlast, ha, h1, h2, h3, h4, h5⟩

/-- Witness for C3 at a concrete full row and continuation row. -/
theorem c3_witness :
    ∃ m amt, ([exMerged] : List Row).getLast? = some m ∧
      claimAmount exFull exCont = some amt ∧
      m.Datum = exFull.Datum ∧
      m.Buchungstext = exFull.Buchungstext ++ " " ++ exCont.Buchungstext ∧
      (¬ exFull.Belastung = 0 → m.Belastung = amt ∧ m.Gutschrift = 0) ∧
      (¬ exFull.Gutschrift = 0 → m.Gutschrift = amt ∧ m.Belastung = 0) ∧
      (exFull.Belastung = 0 → exFull.Gutschrift = 0 →
        m.Belastung = 0 ∧ m.Gutschrift = 0) :=
  c3_continuation_fields [] exFull exCont [exMerged] (by decide) rfl (Or.inr rfl) (by decide)

/-! ## Claim C1: longest-pattern-wins category resolution -/

theorem length_pos_iff_ne_empty (s : String) : 0 < s.length ↔ ¬ s = "" := by
  cases s with
  | mk d =>
    cases d with
    | nil =>
      constructor
      · intro h; exact absurd h (by decide)
      · intro h; exact absurd rfl h
    | cons c t =>
      constructor
      · intro _ he
        have hd : (String.mk (c :: t)).data = ("" : String).data := by rw [he]
        simp at hd
      · intro _
        show 0 < (String.mk (c :: t)).length
        simp [String.length]

theorem maxPatLen_shift (l : List (String × String)) :
    ∀ a : Nat, l.foldl (fun n pc => max n pc.1.length) a = max a (maxPatLen l) := by
  induction l with
  | nil => intro a; simp [maxPatLen]
  | cons q t ih =>
    intro a
    rw [List.foldl_cons, ih (max a q.1.length)]
    have hmt : maxPatLen (q :: t) = max q.1.length (maxPatLen t) := by
      show List.foldl (fun n pc => max n pc.1.length) 0 (q :: t) = _
      rw [List.foldl_cons, ih (max 0 q.1.length), Nat.zero_max]
    rw [hmt, Nat.max_assoc]

theorem maxPatLen_cons (q : String × String) (t : List (String × String)) :
    maxPatLen (q :: t) = max q.1.length (maxPatLen t) := by
  show List.foldl (fun n pc => max n pc.1.length) 0 (q :: t) = _
  rw [List.foldl_cons, maxPatLen_shift t (max 0 q.1.length), Nat.zero_max]

theorem le_maxPatLen_of_mem (l : List (String × String)) (x : String × String)
    (hx : x ∈ l) : x.1.length ≤ maxPatLen l := by
  induction l with
  | nil => simp at hx
  | cons q t ih =>
    rw [maxPatLen_cons]
    rcases List.mem_cons.mp hx with rfl | hxt
    · exact Nat.le_max_left _ _
    · exact le_trans (ih hxt) (Nat.le_max_right _ _)

theorem maxPatLen_le (l : List (String × String)) (k : Nat)
    (h : ∀ x ∈ l, x.1.length ≤ k) : maxPatLen l ≤ k := by
  induction l with
  | nil => exact Nat.zero_le k
  | cons q t ih =>
    rw [maxPatLen_cons]
    exact Nat.max_le.mpr ⟨h q (List.mem_cons_self q t),
      ih (fun x hx => h x (List.mem_cons_of_mem q hx))⟩

theorem maxPatLen_attained (l : List (String × String)) (h : ¬ l = []) :
    ∃ x ∈ l, x.1.length = maxPatLen l := by
  induction l with
  | nil => exact absurd rfl h
  | cons q t ih =>
    cases t with
    | nil =>
      refine ⟨q, List.mem_cons_self q [], ?_⟩
      rw [maxPatLen_cons]
      simp [maxPatLen]
    | cons q2 t2 =>
      obtain ⟨x, hx, hlen⟩ := ih (by simp)
      rw [maxPatLen_cons]
      rcases Nat.le_total (maxPatLen (q2 :: t2)) q.1.length with hle | hle
      · exact ⟨q, List.mem_cons_self q _, (Nat.max_eq_left hle).symm⟩
      · exact ⟨x, List.mem_cons_of_mem q hx, by rw [Nat.max_eq_right hle]; exact hlen⟩

theorem find?_filter_of_imp (p q : (String × String) → Bool)
    (l : List (String × String)) (h : ∀ x ∈ l, p x = true → q x = true) :
    (l.filter q).find? p = l.find? p := by
  induction l with
  | nil => rfl
  | cons x t ih =>
    have iht := ih (fun y hy => h y (List.mem_cons_of_mem x hy))
    cases hq : q x with
    | true =>
      rw [List.filter_cons_of_pos hq]
      cases hp : p x with
      | true => rw [List.find?_cons_of_pos _ hp, List.find?_cons_of_pos _ hp]
      | false =>
        rw [List.find?_cons_of_neg _ (by simp [hp]), List.find?_cons_of_neg _ (by simp [hp]),
          iht]
    | false =>
      have hp : p x = false := by
        cases hpx : p x with
        | true => exact absurd (h x (List.mem_cons_self x t) hpx) (by simp [hq])
        | false => rfl
      rw [List.filter_cons_of_neg (by simp [hq]), List.find?_cons_of_neg _ (by simp [hp]), iht]

/-- Characterization of the `add_category` scan (lines 180-185): starting
from fallback `(c0, n0)`, the final state is the first pair of maximal
pattern length among the case-insensitive matchers whose length exceeds
`n0`, or the fallback when there is none. -/
theorem foldl_stepCat_eq (text : String) :
    ∀ (inv : List (String × String)) (c0 : String) (n0 : Nat),
      inv.foldl (stepCat text) (c0, n0) = bestOf c0 n0 (catMatchers text n0 inv) := by
  intro inv
  induction inv with
  | nil => intro c0 n0; rfl
  | cons pc t ih =>
    intro c0 n0
    by_cases h : (occB pc.1 text && decide (n0 < pc.1.length)) = true
    · have hstep : stepCat text (c0, n0) pc = (pc.2, pc.1.length) := by
        unfold stepCat
        rw [if_pos h]
      rw [List.foldl_cons, hstep, ih]
      have h' := h
      rw [Bool.and_eq_true] at h'
      have hocc : occB pc.1 text = true := h'.1
      have hlt : n0 < pc.1.length := of_decide_eq_true h'.2
      have hMcons : catMatchers text n0 (pc :: t) = pc :: catMatchers text n0 t := by
        unfold catMatchers
        simp only [List.filter_cons]
        rw [if_pos h]
      rw [hMcons]
      have hMtM' : catMatchers text pc.1.length t
          = (catMatchers text n0 t).filter (fun qc => decide (pc.1.length < qc.1.length)) := by
        unfold catMatchers
        rw [List.filter_filter]
        apply List.filter_congr
        intro x hx
        cases hox : occB x.1 text
        · simp [hox]
        · by_cases hpl : pc.1.length < x.1.length
          · have hn0 : n0 < x.1.length := lt_trans hlt hpl
            simp [hox, hpl, hn0]
          · simp [hox, hpl]
      by_cases hMtnil : catMatchers text pc.1.length t = []
      · have hall : ∀ x ∈ catMatchers text n0 t, x.1.length ≤ pc.1.length := by
          intro x hx
          by_contra hgt
          push_neg at hgt
          have hxm : x ∈ catMatchers text pc.1.length t := by
            rw [hMtM']
            exact List.mem_filter.mpr ⟨hx, by simpa using hgt⟩
          rw [hMtnil] at hxm
          simp at hxm
        have hmax : maxPatLen (pc :: catMatchers text n0 t) = pc.1.length := by
          rw [maxPatLen_cons]
          exact Nat.max_eq_left (maxPatLen_le _ _ hall)
        rw [hMtnil]
        unfold bestOf
        rw [List.find?_cons_of_pos _ (by simp [hmax])]
        rfl
      · obtain ⟨x0, hx0⟩ := List.exists_mem_of_ne_nil _ hMtnil
        have hsubgt : ∀ x ∈ catMatchers text pc.1.length t, pc.1.length < x.1.length := by
          intro x hx
          rw [hMtM'] at hx
          have := (List.mem_filter.mp hx).2
          simpa using this
        have hsubmem : ∀ x ∈ catMatchers text pc.1.length t, x ∈ catMatchers text n0 t := by
          intro x hx
          rw [hMtM'] at hx
          exact (List.mem_filter.mp hx).1
        have hM'ne : ¬ catMatchers text n0 t = [] :=
          List.ne_nil_of_mem (hsubmem x0 hx0)
        have hmtle : maxPatLen (catMatchers text pc.1.length t)
            ≤ maxPatLen (catMatchers text n0 t) :=
          maxPatLen_le _ _ (fun x hx => le_maxPatLen_of_mem _ x (hsubmem x hx))
        have hpcmt : pc.1.length < maxPatLen (catMatchers text pc.1.length t) :=
          lt_of_lt_of_le (hsubgt x0 hx0) (le_maxPatLen_of_mem _ x0 hx0)
        have hmtge : maxPatLen (catMatchers text n0 t)
            ≤ maxPatLen (catMatchers text pc.1.length t) := by
          obtain ⟨y, hy, hylen⟩ := maxPatLen_attained _ hM'ne
          have hygt : pc.1.length < y.1.length := by
            rw [hylen]
            exact lt_of_lt_of_le hpcmt hmtle
          have hyMt : y ∈ catMatchers text pc.1.length t := by
            rw [hMtM']
            exact List.mem_filter.mpr ⟨hy, by simpa using hygt⟩
          rw [← hylen]
          exact le_maxPatLen_of_mem _ y hyMt
        have hmteq : maxPatLen (catMatchers text n0 t)
            = maxPatLen (catMatchers text pc.1.length t) := le_antisymm hmtge hmtle
        have hconsmax : maxPatLen (pc :: catMatchers text n0 t)
            = maxPatLen (catMatchers text pc.1.length t) := by
          rw [maxPatLen_cons, hmteq]
          exact Nat.max_eq_right (le_of_lt hpcmt)
        obtain ⟨w, hwfind⟩ : ∃ w, (catMatchers text pc.1.length t).find?
            (fun x => decide (x.1.length = maxPatLen (catMatchers text pc.1.length t)))
            = some w := by
          obtain ⟨x, hx, hxlen⟩ := maxPatLen_attained _ hMtnil
          exact Option.isSome_iff_exists.mp
            (List.find?_isSome.mpr ⟨x, hx, by simp [hxlen]⟩)
        have himp : ∀ x ∈ catMatchers text n0 t,
            (fun x => decide (x.1.length
              = maxPatLen (catMatchers text pc.1.length t))) x = true →
            (fun qc => decide (pc.1.length < qc.1.length)) x = true := by
          intro x hx hpx
          have hxlen : x.1.length = maxPatLen (catMatchers text pc.1.length t) :=
            of_decide_eq_true hpx
          simp [hxlen, hpcmt]
        have hfindeq : (catMatchers text n0 t).find?
            (fun x => decide (x.1.length = maxPatLen (catMatchers text pc.1.length t)))
            = some w := by
          rw [← hwfind, ← find?_filter_of_imp _ _ _ himp, ← hMtM']
        unfold bestOf
        simp only [hconsmax]
        rw [List.find?_cons_of_neg _ (by simp [Nat.ne_of_lt hpcmt]), hfindeq, hwfind]
    · have hstep : stepCat text (c0, n0) pc = (c0, n0) := by
        unfold stepCat
        rw [if_neg h]
      have hMcons : catMatchers text n0 (pc :: t) = catMatchers text n0 t := by
        unfold catMatchers
        simp only [List.filter_cons]
        rw [if_neg h]
      rw [List.foldl_cons, hstep, ih, hMcons]

/-- Counterexample to claim C1 as stated: with category definitions
`{"A": [""]}` the empty pattern occurs (as any empty string does) in the
description `"x"`, so the claim's longest-matching-pattern rule assigns
`"A"`, but the resolver assigns `"unknown"`: a pattern whose length is 0
can never exceed the running length, which starts at 0. -/
theorem c1_counterexample :
    resolveCat (invertCategories [("A", [""])]) "x" = "unknown" ∧
    specResolveClaim (invertCategories [("A", [""])]) "x" = "A" :=
  ⟨by decide, by decide⟩

/-- Claim C1, amended: for every record and category-definitions mapping,
the resolver assigns the category whose pattern is the longest non-empty
pattern occurring as a case-insensitive substring of the description;
among matching non-empty patterns of maximal length the first in iteration
order of the inverted mapping wins; if no non-empty pattern matches, the
category is exactly `"unknown"`. -/
theorem c1_amended (cats : Cats) (text : String) :
    resolveCat (invertCategories cats) text
      = specResolveLongest (invertCategories cats) text := by
  have H : ∀ inv : List (String × String),
      resolveCat inv text = specResolveLongest inv text := by
    intro inv
    unfold resolveCat specResolveLongest
    rw [foldl_stepCat_eq]
    have hfil : catMatchers text 0 inv
        = inv.filter (fun pc => occB pc.1 text && decide (¬ pc.1 = "")) := by
      unfold catMatchers
      apply List.filter_congr
      intro x hx
      cases hox : occB x.1 text
      · simp [hox]
      · simp only [hox, Bool.true_and]
        rw [decide_eq_decide]
        exact length_pos_iff_ne_empty x.1
    rw [hfil]
  exact H _

/-! ## Claim C8: the summary aggregator -/

theorem lookB_nil (c : String) : lookB [] c = 0 := rfl

theorem lookG_nil (c : String) : lookG [] c = 0 := rfl

theorem lookB_cons (e : String × Rat × Rat) (t : List (String × Rat × Rat)) (c : String) :
    lookB (e :: t) c = if e.1 = c then e.2.1 else lookB t c := by
  unfold lookB
  by_cases h : e.1 = c
  · rw [List.find?_cons_of_pos _ (by simp [h]), if_pos h]
    rfl
  · rw [List.find?_cons_of_neg _ (by simp [h]), if_neg h]

theorem lookG_cons (e : String × Rat × Rat) (t : List (String × Rat × Rat)) (c : String) :
    lookG (e :: t) c = if e.1 = c then e.2.2 else lookG t c := by
  unfold lookG
  by_cases h : e.1 = c
  · rw [List.find?_cons_of_pos _ (by simp [h]), if_pos h]
    rfl
  · rw [List.find?_cons_of_neg _ (by simp [h]), if_neg h]

theorem lookB_upsert (acc : List (String × Rat × Rat)) (cat : String) (b g : Rat)
    (c : String) :
    lookB (upsert acc cat b g) c = lookB acc c + (if c = cat then b else 0) := by
  induction acc with
  | nil =>
    show lookB [(cat, b, g)] c = lookB [] c + _
    rw [lookB_cons, lookB_nil]
    by_cases hc : c = cat
    · rw [if_pos hc.symm, if_pos hc, zero_add]
    · rw [if_neg (fun h => hc h.symm), if_neg hc]
      norm_num
  | cons e t ih =>
    simp only [upsert]
    by_cases he : e.1 = cat
    · rw [if_pos he, lookB_cons, lookB_cons]
      by_cases hc : e.1 = c
      · rw [if_pos hc, if_pos hc, if_pos (by rw [← hc, he])]
      · rw [if_neg hc, if_neg hc, if_neg (fun h => hc (by rw [he, ← h]))]
        rw [add_zero]
    · rw [if_neg he, lookB_cons, lookB_cons, ih]
      by_cases hc : e.1 = c
      · rw [if_pos hc, if_pos hc, if_neg (fun h => he (by rw [hc, ← h])), add_zero]
      · rw [if_neg hc, if_neg hc]

theorem lookG_upsert (acc : List (String × Rat × Rat)) (cat : String) (b g : Rat)
    (c : String) :
    lookG (upsert acc cat b g) c = lookG acc c + (if c = cat then g else 0) := by
  induction acc with
  | nil =>
    show lookG [(cat, b, g)] c = lookG [] c + _
    rw [lookG_cons, lookG_nil]
    by_cases hc : c = cat
    · rw [if_pos hc.symm, if_pos hc, zero_add]
    · rw [if_neg (fun h => hc h.symm), if_neg hc]
      norm_num
  | cons e t ih =>
    simp only [upsert]
    by_cases he : e.1 = cat
    · rw [if_pos he, lookG_cons, lookG_cons]
      by_cases hc : e.1 = c
      · rw [if_pos hc, if_pos hc, if_pos (by rw [← hc, he])]
      · rw [if_neg hc, if_neg hc, if_neg (fun h => hc (by rw [he, ← h]))]
        rw [add_zero]
    · rw [if_neg he, lookG_cons, lookG_cons, ih]
      by_cases hc : e.1 = c
      · rw [if_pos hc, if_pos hc, if_neg (fun h => he (by rw [hc, ← h])), add_zero]
      · rw [if_neg hc, if_neg hc]

theorem catSumB_cons (r : CRow) (t : List CRow) (c : String) :
    catSumB (r :: t) c = (if r.Kategorie = c then r.Belastung else 0) + catSumB t c := by
  unfold catSumB
  by_cases h : r.Kategorie = c
  · simp [h]
  · simp [h]

theorem catSumG_cons (r : CRow) (t : List CRow) (c : String) :
    catSumG (r :: t) c = (if r.Kategorie = c then r.Gutschrift else 0) + catSumG t c := by
  unfold catSumG
  by_cases h : r.Kategorie = c
  · simp [h]
  · simp [h]

/-- The accumulated dictionary sums per category equal the filtered sums. -/
theorem lookB_sumsOf (table : List CRow) :
    ∀ (acc : List (String × Rat × Rat)) (c : String),
      lookB (table.foldl (fun acc r => upsert acc r.Kategorie r.Belastung r.Gutschrift) acc) c
        = lookB acc c + catSumB table c := by
  induction table with
  | nil =>
    intro acc c
    show lookB acc c = lookB acc c + catSumB [] c
    simp [catSumB]
  | cons r t ih =>
    intro acc c
    rw [List.foldl_cons, ih, lookB_upsert, catSumB_cons]
    by_cases h : c = r.Kategorie
    · rw [if_pos h, if_pos h.symm]
      ring
    · rw [if_neg h, if_neg (fun hh => h hh.symm)]
      ring

theorem lookG_sumsOf (table : List CRow) :
    ∀ (acc : List (String × Rat × Rat)) (c : String),
      lookG (table.foldl (fun acc r => upsert acc r.Kategorie r.Belastung r.Gutschrift) acc) c
        = lookG acc c + catSumG table c := by
  induction table with
  | nil =>
    intro acc c
    show lookG acc c = lookG acc c + catSumG [] c
    simp [catSumG]
  | cons r t ih =>
    intro acc c
    rw [List.foldl_cons, ih, lookG_upsert, catSumG_cons]
    by_cases h : c = r.Kategorie
    · rw [if_pos h, if_pos h.symm]
      ring
    · rw [if_neg h, if_neg (fun hh => h hh.symm)]
      ring

/-- The dictionary's keys in insertion order are the categories present in
first-appearance order. -/
theorem upsert_keys (acc : List (String × Rat × Rat)) (cat : String) (b g : Rat) :
    (upsert acc cat b g).map Prod.fst
      = if cat ∈ acc.map Prod.fst then acc.map Prod.fst else acc.map Prod.fst ++ [cat] := by
  induction acc with
  | nil => simp [upsert]
  | cons e t ih =>
    simp only [upsert]
    by_cases he : e.1 = cat
    · rw [if_pos he]
      simp [he]
    · rw [if_neg he]
      simp only [List.map_cons, ih]
      by_cases hm : cat ∈ t.map Prod.fst
      · rw [if_pos hm, if_pos (by simp [List.mem_cons, hm])]
      · rw [if_neg hm, if_neg ?hnc]
        · simp
        case hnc =>
          simp only [List.mem_cons]
          rintro (hx | hx)
          · exact he hx.symm
          · exact hm hx

theorem sumsOf_keys (table : List CRow) :
    ∀ acc : List (String × Rat × Rat),
      (table.foldl (fun acc r => upsert acc r.Kategorie r.Belastung r.Gutschrift) acc).map
          Prod.fst
        = table.foldl (fun ks r => if r.Kategorie ∈ ks then ks else ks ++ [r.Kategorie])
            (acc.map Prod.fst) := by
  induction table with
  | nil => intro acc; rfl
  | cons r t ih =>
    intro acc
    rw [List.foldl_cons, List.foldl_cons, ih, upsert_keys]

theorem specCats_eq (table : List CRow) :
    (sumsOf table).map Prod.fst = specCats table := by
  unfold sumsOf specCats
  rw [sumsOf_keys]
  rfl

/-- A category appears in the dedup-in-order list iff some row carries it. -/
theorem specCats_mem_gen (table : List CRow) :
    ∀ (ks : List String) (c : String),
      c ∈ table.foldl (fun ks r => if r.Kategorie ∈ ks then ks else ks ++ [r.Kategorie]) ks
        ↔ c ∈ ks ∨ ∃ r ∈ table, r.Kategorie = c := by
  induction table with
  | nil => intro ks c; simp
  | cons r t ih =>
    intro ks c
    rw [List.foldl_cons, ih]
    by_cases h : r.Kategorie ∈ ks
    · rw [if_pos h]
      simp only [List.exists_mem_cons_iff]
      constructor
      · rintro (hc | hex)
        · exact Or.inl hc
        · exact Or.inr (Or.inr hex)
      · rintro (hc | hrc | hex)
        · exact Or.inl hc
        · rw [hrc] at h; exact Or.inl h
        · exact Or.inr hex
    · rw [if_neg h]
      simp only [List.mem_append, List.mem_singleton, List.exists_mem_cons_iff]
      constructor
      · rintro ((hc | hc) | hex)
        · exact Or.inl hc
        · exact Or.inr (Or.inl hc.symm)
        · exact Or.inr (Or.inr hex)
      · rintro (hc | hrc | hex)
        · exact Or.inl (Or.inl hc)
        · exact Or.inl (Or.inr hrc.symm)
        · exact Or.inr hex

theorem foldl_add_B (table : List CRow) :
    ∀ a : Rat, table.foldl (fun n r => n + r.Belastung) a
      = a + (table.map CRow.Belastung).sum := by
  induction table with
  | nil => intro a; simp
  | cons r t ih =>
    intro a
    rw [List.foldl_cons, ih, List.map_cons, List.sum_cons]
    ring

theorem foldl_add_G (table : List CRow) :
    ∀ a : Rat, table.foldl (fun n r => n + r.Gutschrift) a
      = a + (table.map CRow.Gutschrift).sum := by
  induction table with
  | nil => intro a; simp
  | cons r t ih =>
    intro a
    rw [List.foldl_cons, ih, List.map_cons, List.sum_cons]
    ring

theorem totB_eq (table : List CRow) : totB table = (table.map CRow.Belastung).sum := by
  unfold totB
  rw [foldl_add_B, zero_add]

theorem totG_eq (table : List CRow) : totG table = (table.map CRow.Gutschrift).sum := by
  unfold totG
  rw [foldl_add_G, zero_add]

theorem insortStr_length (x : String) (l : List String) :
    (insortStr x l).length = l.length + 1 := by
  induction l with
  | nil => rfl
  | cons y t ih =>
    simp only [insortStr]
    split
    · simp
    · simp [ih]

theorem sortStr_length (l : List String) : (sortStr l).length = l.length := by
  induction l with
  | nil => rfl
  | cons x t ih =>
    show (insortStr x (sortStr t)).length = _
    rw [insortStr_length, ih]
    rfl

/-- Declarative description of the summary: category rows in sorted order
with rounded filtered sums, then separator and grand total exactly when
more than one category is present. -/
theorem summarize_spec (table : List CRow) :
    summarize table
      = ((sortStr (specCats table)).map (fun c =>
          (⟨c, .vRat (round2 (catSumB table c)), .vRat (round2 (catSumG table c))⟩ : SumRow)))
        ++ (if 1 < (specCats table).length then
              [dummyRow, ⟨"GESAMT-TOTAL", .vRat (round2 ((table.map CRow.Belastung).sum)),
                .vRat (round2 ((table.map CRow.Gutschrift).sum))⟩]
            else []) := by
  have hB : ∀ c, lookB (sumsOf table) c = catSumB table c := by
    intro c
    have h := lookB_sumsOf table [] c
    rw [lookB_nil, zero_add] at h
    exact h
  have hG : ∀ c, lookG (sumsOf table) c = catSumG table c := by
    intro c
    have h := lookG_sumsOf table [] c
    rw [lookG_nil, zero_add] at h
    exact h
  simp only [summarize]
  rw [specCats_eq, totB_eq, totG_eq, List.length_map, sortStr_length]
  simp only [hB, hG]
  by_cases hc : 1 < (specCats table).length
  · rw [if_pos hc, if_pos hc]
  · rw [if_neg hc, if_neg hc, List.append_nil]

/-- Claim C8: the report aggregator produces, for each category present in
name-sorted order, the category's debit and credit sums rounded to 2
decimal places, and appends a `GESAMT-TOTAL` row preceded by a blank
separator row iff more than one category is present; on the spec's example
rows the output is A: 15/0, B: 0/20 plus a 15/20 grand total. -/
theorem c8_summary :
    (∀ table : List CRow, summarize table
      = ((sortStr (specCats table)).map (fun c =>
          (⟨c, .vRat (round2 (catSumB table c)), .vRat (round2 (catSumG table c))⟩ : SumRow)))
        ++ (if 1 < (specCats table).length then
              [dummyRow, ⟨"GESAMT-TOTAL", .vRat (round2 ((table.map CRow.Belastung).sum)),
                .vRat (round2 ((table.map CRow.Gutschrift).sum))⟩]
            else [])) ∧
    (∀ (c : String) (table : List CRow),
      c ∈ specCats table ↔ ∃ r ∈ table, r.Kategorie = c) ∧
    summarize [⟨0, "d", "x", 10, 0, "A"⟩, ⟨1, "d", "y", 5, 0, "A"⟩, ⟨2, "d", "z", 0, 20, "B"⟩]
      = [⟨"A", .vRat 15, .vRat 0⟩, ⟨"B", .vRat 0, .vRat 20⟩, dummyRow,
         ⟨"GESAMT-TOTAL", .vRat 15, .vRat 20⟩] := by
  refine ⟨summarize_spec, ?_, ?_⟩
  · intro c table
    have h := specCats_mem_gen table [] c
    simpa using h
  · rw [summarize_spec]
    have h1 : specCats [(⟨0, "d", "x", 10, 0, "A"⟩ : CRow), ⟨1, "d", "y", 5, 0, "A"⟩,
        ⟨2, "d", "z", 0, 20, "B"⟩] = ["A", "B"] := by decide
    rw [h1]
    have hsort : sortStr ["A", "B"] = ["A", "B"] := by decide
    rw [hsort]
    have hfloor : ∀ n : Int, ((n : Rat)).floor = n := by
      intro n
      rw [show ((n : Rat)).floor = ⌊(n : Rat)⌋ from rfl, Int.floor_intCast]
    have hrhe : ∀ n : Int, rhe ((n : Rat)) = n := by
      intro n
      unfold rhe
      rw [hfloor]
      norm_num
    have hround : ∀ n : Int, round2 ((n : Rat)) = (n : Rat) := by
      intro n
      unfold round2
      have h : ((n : Rat)) * 100 = (((100 * n) : Int) : Rat) := by push_cast; ring
      rw [h, hrhe]
      push_cast
      field_simp
    have hr15 : round2 (15 : Rat) = 15 := by exact_mod_cast hround 15
    have hr0 : round2 (0 : Rat) = 0 := by exact_mod_cast hround 0
    have hr20 : round2 (20 : Rat) = 20 := by exact_mod_cast hround 20
    have harith : (10 : Rat) + 5 = 15 := by norm_num
    have hBA : catSumB [(⟨0, "d", "x", 10, 0, "A"⟩ : CRow), ⟨1, "d", "y", 5, 0, "A"⟩,
        ⟨2, "d", "z", 0, 20, "B"⟩] "A" = 15 := by
      simp [catSumB, harith]
    have hGA : catSumG [(⟨0, "d", "x", 10, 0, "A"⟩ : CRow), ⟨1, "d", "y", 5, 0, "A"⟩,
        ⟨2, "d", "z", 0, 20, "B"⟩] "A" = 0 := by
      simp [catSumG]
    have hBB : catSumB [(⟨0, "d", "x", 10, 0, "A"⟩ : CRow), ⟨1, "d", "y", 5, 0, "A"⟩,
        ⟨2, "d", "z", 0, 20, "B"⟩] "B" = 0 := by
      simp [catSumB]
    have hGB : catSumG [(⟨0, "d", "x", 10, 0, "A"⟩ : CRow), ⟨1, "d", "y", 5, 0, "A"⟩,
        ⟨2, "d", "z", 0, 20, "B"⟩] "B" = 20 := by
      simp [catSumG]
    have htB : (([(⟨0, "d", "x", 10, 0, "A"⟩ : CRow), ⟨1, "d", "y", 5, 0, "A"⟩,
        ⟨2, "d", "z", 0, 20, "B"⟩]).map CRow.Belastung).sum = 15 := by
      simp [harith]
    have htG : (([(⟨0, "d", "x", 10, 0, "A"⟩ : CRow), ⟨1, "d", "y", 5, 0, "A"⟩,
        ⟨2, "d", "z", 0, 20, "B"⟩]).map CRow.Gutschrift).sum = 20 := by
      simp
    rw [htB, htG]
    simp only [List.map_cons, List.map_nil, hBA, hGA, hBB, hGB, hr15, hr0, hr20]
    rfl

end Analyze
